import Mathlib

/-!
Verification of the onboarding-form core: shallow embedding of the mask
engine, the Canadian phone predicate, the zod field validators, the
corporation-number validation cache/deduplicator, and the form engine
orchestration, translated from the TypeScript sources.  JavaScript strings
are modelled as `List Char`.
-/

namespace VCA

/-- JS whitespace characters relevant to `String.prototype.trim` (ASCII
whitespace plus NBSP and BOM; exotic Unicode space separators are outside
the domain exercised by this form). -/
def isJsSpace (c : Char) : Bool :=
  c = ' ' || c = '\t' || c = '\n' || c = '\r' || c = '\x0b' || c = '\x0c' ||
  c = ' ' || c = '﻿'

/-- Embedding of `String.prototype.trim`: strip leading and trailing
whitespace. -/
def jsTrim (s : List Char) : List Char :=
  ((s.dropWhile isJsSpace).reverse.dropWhile isJsSpace).reverse

/-- Embedding of `src/lib/formValuesValidators.ts` `isValidCanadianPhone`:
extract digits; 11 digits starting with 1 strip the country code, 10 digits
are used as-is, anything else is invalid; the first remaining digit must be
2-9. -/
def isValidCanadianPhone (value : List Char) : Bool :=
  let digits := value.filter Char.isDigit
  let phoneDigits? : Option (List Char) :=
    if digits.length = 11 ∧ digits.head? = some '1' then some (digits.drop 1)
    else if digits.length = 10 then some digits
    else none
  match phoneDigits? with
  | none => false
  | some pd =>
    match pd.head? with
    | none => false
    | some c => decide ('2' ≤ c ∧ c ≤ '9')

/-! ## Mask engine (part_011 `maskRegistry`) -/

/-- `replace(/[^\d]/g, '')` and `replace(/\D/g, '')`: keep ASCII digits. -/
def jsDigits (s : List Char) : List Char := s.filter Char.isDigit

/-- `replace(/[^A-Za-z0-9]/g, '')`: keep ASCII alphanumerics. -/
def jsAlnums (s : List Char) : List Char := s.filter Char.isAlphanum

/-- `toUpperCase` on the ASCII alphanumerics that survive the postal-code
filter coincides with `Char.toUpper`. -/
def jsToUpper (c : Char) : Char := c.toUpper

/-- phone-ca `format`: `+D`, `+D (DDD`, `+D (DDD) DDD`, `+D (DDD) DDD-DDDD`
as digits accrue (`slice(a, b)` is `take (b - a) ∘ drop a`). -/
def phoneFormat (raw : List Char) : List Char :=
  let digits := jsDigits raw
  if digits.length = 0 then []
  else if digits.length ≤ 1 then '+' :: digits
  else if digits.length ≤ 4 then
    '+' :: (digits.take 1 ++ [' ', '('] ++ digits.drop 1)
  else if digits.length ≤ 7 then
    '+' :: (digits.take 1 ++ [' ', '('] ++ (digits.drop 1).take 3
      ++ [')', ' '] ++ digits.drop 4)
  else
    '+' :: (digits.take 1 ++ [' ', '('] ++ (digits.drop 1).take 3
      ++ [')', ' '] ++ (digits.drop 4).take 3 ++ ['-'] ++ (digits.drop 7).take 4)

/-- phone-ca `parse`: strip non-digits, cap at 11 digits, re-add `+`. -/
def phoneParse (formatted : List Char) : List Char :=
  let digits := jsDigits formatted
  if digits.length = 0 then [] else '+' :: digits.take 11

/-- `digits.match(/.{1,4}/g)`: split into blocks of at most 4. -/
def chunks4 : List Char → List (List Char)
  | [] => []
  | [a] => [[a]]
  | [a, b] => [[a, b]]
  | [a, b, c] => [[a, b, c]]
  | a :: b :: c :: d :: rest => [a, b, c, d] :: chunks4 rest

/-- `groups.join(' ')`. -/
def joinSp : List (List Char) → List Char
  | [] => []
  | [g] => g
  | g :: gs => g ++ ' ' :: joinSp gs

/-- credit-card `format`: blocks of 4 digits joined by spaces, display capped
at 19 characters (16 digits + 3 spaces). -/
def creditCardFormat (raw : List Char) : List Char :=
  let digits := jsDigits raw
  if digits = [] then digits
  else (joinSp (chunks4 digits)).take 19

/-- credit-card `parse`: strip non-digits, cap at 16. -/
def creditCardParse (formatted : List Char) : List Char :=
  (jsDigits formatted).take 16

/-- postal-code-ca cleaning: strip non-alphanumerics, uppercase, cap at 6. -/
def postalClean (s : List Char) : List Char :=
  ((jsAlnums s).map jsToUpper).take 6

/-- postal-code-ca `format`: cleaned value with a space inserted after
the third character once longer than 3. -/
def postalFormat (raw : List Char) : List Char :=
  let cleaned := postalClean raw
  if cleaned.length ≤ 3 then cleaned
  else cleaned.take 3 ++ ' ' :: cleaned.drop 3

/-- postal-code-ca `parse`: same cleaning as `format`. -/
def postalParse (formatted : List Char) : List Char := postalClean formatted

/-- date `format`: 8 digits grouped as `MM/DD/YYYY`, built incrementally. -/
def dateFormat (raw : List Char) : List Char :=
  let digits := (jsDigits raw).take 8
  if digits.length ≤ 2 then digits
  else if digits.length ≤ 4 then digits.take 2 ++ '/' :: digits.drop 2
  else digits.take 2 ++ '/' :: ((digits.drop 2).take 2 ++ '/' :: (digits.drop 4).take 4)

/-- date `parse`: strip non-digits, cap at 8. -/
def dateParse (formatted : List Char) : List Char :=
  (jsDigits formatted).take 8

/-- The four built-in mask presets of the registry. -/
inductive MaskPresetName where
  | phoneCA | creditCard | postalCodeCA | date
  deriving DecidableEq

/-- Registry dispatch for `format`. -/
def maskFormat : MaskPresetName → List Char → List Char
  | .phoneCA => phoneFormat
  | .creditCard => creditCardFormat
  | .postalCodeCA => postalFormat
  | .date => dateFormat

/-- Registry dispatch for `parse`. -/
def maskParse : MaskPresetName → List Char → List Char
  | .phoneCA => phoneParse
  | .creditCard => creditCardParse
  | .postalCodeCA => postalParse
  | .date => dateParse

/-- The preset's maximum raw length as registered. -/
def maskMaxLength : MaskPresetName → Nat
  | .phoneCA => 11
  | .creditCard => 16
  | .postalCodeCA => 6
  | .date => 8

/-- Stated from the specification: `normalize` strips characters outside the
preset's domain (non-digits, or non-alphanumerics with uppercasing for the
postal preset, re-adding the leading `+` for the phone preset) and caps the
result at the preset's maximum raw length. -/
def specNormalize : MaskPresetName → List Char → List Char
  | .phoneCA, x =>
    if jsDigits x = [] then [] else '+' :: (jsDigits x).take (maskMaxLength .phoneCA)
  | .creditCard, x => (jsDigits x).take (maskMaxLength .creditCard)
  | .postalCodeCA, x => ((jsAlnums x).map jsToUpper).take (maskMaxLength .postalCodeCA)
  | .date, x => (jsDigits x).take (maskMaxLength .date)

/-- Snapshot of the observable state feeding `isSubmitDisabled` in
`useConfigurableForm` (part_009): the RHF error map, the watched field
values, the mutation pending flag and the validating flag. -/
structure FormSnapshot where
  errors : List (List Char × List Char)
  values : List (List Char × List Char)
  isPending : Bool
  isValidating : Bool

/-- `Object.keys(errors).length > 0`. -/
def hasErrors (s : FormSnapshot) : Bool :=
  decide (0 < s.errors.length)

/-- `Object.values(values).every((v) => v && String(v).trim().length > 0)`. -/
def allFieldsFilled (s : FormSnapshot) : Bool :=
  s.values.all (fun p => !(p.2.isEmpty) && decide (0 < (jsTrim p.2).length))

/-- `hasErrors || !allFieldsFilled || submitMutation.isPending || isValidating`. -/
def isSubmitDisabled (s : FormSnapshot) : Bool :=
  hasErrors s || !(allFieldsFilled s) || s.isPending || s.isValidating

/-! ## Field schema validators (part_017 `onboardingSchema`)

zod string checks run in declaration order on the trimmed value and
accumulate issues; a `.refine` runs afterwards on the transformed value as
long as parsing was not aborted.  The `@hookform/resolvers` zodResolver
surfaces the first issue per field path, so the observable error of a field
is the head of its issue list. -/

/-- Error translation keys of the onboarding schema. -/
inductive ErrCode where
  | firstNameRequired | lastNameRequired | phoneRequired | corpRequired
  | maxLength | invalidPhone | corpLength | corpDigitsOnly | invalidCorporation
  deriving DecidableEq

/-- `corporationNumberRegex = ^\d{CORP_NUMBER_LENGTH}$` with
`CORP_NUMBER_LENGTH = 9` (constants.ts). -/
def corpNumberRegexTest (t : List Char) : Bool :=
  t.length == 9 && t.all Char.isDigit

/-- `firstName`: trim, min 1 (`firstNameRequired`), max 50 (`maxLength`). -/
def firstNameIssues (v : List Char) : List ErrCode :=
  let t := jsTrim v
  (if t.length < 1 then [ErrCode.firstNameRequired] else [])
    ++ (if 50 < t.length then [ErrCode.maxLength] else [])

/-- `lastName`: trim, min 1 (`lastNameRequired`), max 50 (`maxLength`). -/
def lastNameIssues (v : List Char) : List ErrCode :=
  let t := jsTrim v
  (if t.length < 1 then [ErrCode.lastNameRequired] else [])
    ++ (if 50 < t.length then [ErrCode.maxLength] else [])

/-- `phone`: trim, min 1 (`phoneRequired`), refine `isValidCanadianPhone`
(`invalidPhone`). -/
def phoneIssues (v : List Char) : List ErrCode :=
  let t := jsTrim v
  (if t.length < 1 then [ErrCode.phoneRequired] else [])
    ++ (if isValidCanadianPhone t then [] else [ErrCode.invalidPhone])

/-- The guard heading the corporation-number async refinement:
`value.length !== CORP_NUMBER_LENGTH || !corporationNumberRegex.test(value)`
makes the refinement return `true` early for malformed values. -/
def corpRefineSkips (t : List Char) : Bool :=
  !(t.length == 9) || !(corpNumberRegexTest t)

/-- Whether validating the record invokes `validateCorporationWithCache`
(and hence possibly the external collaborator) for this value. -/
def corpInvokesCache (v : List Char) : Bool :=
  !(corpRefineSkips (jsTrim v))

/-- `corporationNumber`: trim, min 1 (`corpRequired`), length 9
(`corpLength`), regex (`corpDigitsOnly`), async refinement
(`invalidCorporation`); `oracle` is the boolean the validation cache
resolves when the refinement's guard passes. -/
def corpIssues (v : List Char) (oracle : Bool) : List ErrCode :=
  let t := jsTrim v
  (if t.length < 1 then [ErrCode.corpRequired] else [])
    ++ (if t.length ≠ 9 then [ErrCode.corpLength] else [])
    ++ (if corpNumberRegexTest t then [] else [ErrCode.corpDigitsOnly])
    ++ (if corpRefineSkips t then []
        else if oracle then [] else [ErrCode.invalidCorporation])

/-- zodResolver keeps the first issue reported for a field path. -/
def fieldError (issues : List ErrCode) : Option ErrCode := issues.head?

/-- Stated from the specification: first/last name rules in order. -/
def specFirstFailingName (required : ErrCode) (v : List Char) : Option ErrCode :=
  let t := jsTrim v
  if t = [] then some required
  else if 50 < t.length then some ErrCode.maxLength
  else none

/-- Stated from the specification: phone rules in order. -/
def specFirstFailingPhone (v : List Char) : Option ErrCode :=
  let t := jsTrim v
  if t = [] then some ErrCode.phoneRequired
  else if isValidCanadianPhone t then none
  else some ErrCode.invalidPhone

/-- Stated from the specification: corporation-number rules in order:
non-empty, exact 9-character length, all-digit, async cache check. -/
def specFirstFailingCorp (v : List Char) (oracle : Bool) : Option ErrCode :=
  let t := jsTrim v
  if t = [] then some ErrCode.corpRequired
  else if t.length ≠ 9 then some ErrCode.corpLength
  else if ¬ (t.all Char.isDigit = true) then some ErrCode.corpDigitsOnly
  else if oracle then none
  else some ErrCode.invalidCorporation

/-! ## Validation cache / deduplicator (part_017 `validateCorporationWithCache`)

The module-level `corporationValidationCache` and `pendingValidations` maps
are modelled as an explicit state; the synchronous prefix of a client call
and the settling of the in-flight request (the continuation after
`await validateCorporationNumber`, which runs `cache.set`/`return` or the
`catch`, then the `finally` deleting the pending entry, without
interleaving) are the two atomic events of the single-threaded event loop. -/

/-- Cache keys are the exact validated string values. -/
abbrev CKey := List Char

/-- JS `Map.set`: replace in place when the key exists, else append. -/
def mapSet (m : List (CKey × Bool)) (k : CKey) (v : Bool) : List (CKey × Bool) :=
  if (m.lookup k).isSome then
    m.map fun p => if p.1 = k then (k, v) else p
  else m ++ [(k, v)]

/-- Outcome of the external corporation check: `ok b` when the collaborator
resolves with `result.valid = b`, `err` when it throws. -/
inductive NetOutcome where
  | ok (b : Bool)
  | err
  deriving DecidableEq

/-- The boolean each joined caller resolves with: the result on success,
`false` from the `catch` branch on failure. -/
def settleVal : NetOutcome → Bool
  | .ok b => b
  | .err => false

/-- State of the cache/dedup component plus observable bookkeeping:
`netLog` records external invocations in order; `waiting` holds call ids
joined to the pending promise of their key; `resolved` holds call ids that
have resolved, with their boolean. -/
structure CacheState where
  cache : List (CKey × Bool)
  pending : List CKey
  waiting : List (Nat × CKey)
  resolved : List (Nat × Bool)
  netLog : List CKey
  nextId : Nat
  deriving DecidableEq

/-- Events: the synchronous prefix of a client call, and the settling of
the in-flight request for a key. -/
inductive CEvent where
  | call (k : CKey)
  | settle (k : CKey) (o : NetOutcome)
  deriving DecidableEq

/-- One step of `validateCorporationWithCache`: a call returns the cached
value, joins the pending promise, or starts a new request (set pending, one
external invocation); a settle caches on success only, resolves every
joined caller with the same boolean, and deletes the pending entry
regardless of outcome (`finally`). -/
def cacheStep (s : CacheState) : CEvent → CacheState
  | .call k =>
    match s.cache.lookup k with
    | some b =>
      { s with resolved := s.resolved ++ [(s.nextId, b)], nextId := s.nextId + 1 }
    | none =>
      if k ∈ s.pending then
        { s with waiting := s.waiting ++ [(s.nextId, k)], nextId := s.nextId + 1 }
      else
        { s with pending := k :: s.pending,
                 netLog := s.netLog ++ [k],
                 waiting := s.waiting ++ [(s.nextId, k)],
                 nextId := s.nextId + 1 }
  | .settle k o =>
    if k ∈ s.pending then
      { s with
        cache := match o with
          | .ok b => mapSet s.cache k b
          | .err => s.cache,
        pending := s.pending.erase k,
        waiting := s.waiting.filter fun p => !(p.2 == k),
        resolved := s.resolved
          ++ (s.waiting.filter fun p => p.2 == k).map fun p => (p.1, settleVal o) }
    else s

/-- Run a sequence of events. -/
def cacheRun (s : CacheState) (es : List CEvent) : CacheState :=
  es.foldl cacheStep s

/-- The maps start empty. -/
def initCache : CacheState := ⟨[], [], [], [], [], 0⟩

/-- Consecutive call ids `n, n+1, ..., n+M-1`. -/
def idsFrom (n : Nat) : Nat → List Nat
  | 0 => []
  | M + 1 => n :: idsFrom (n + 1) M

/-! ## Corporation-check API wrapper
(`onboarding.api.ts` `validateCorporationNumber`) -/

/-- Minimal JSON value model for response bodies. -/
inductive Json where
  | jNull
  | jBool (b : Bool)
  | jNum (n : Int)
  | jStr (s : List Char)
  | jObj (fields : List (List Char × Json))

/-- Parsed corporation-check response
(`corporationValidationResponseSchema`). -/
structure CorpResp where
  corporationNumber? : Option (List Char)
  valid : Bool
  message? : Option (List Char)
  deriving DecidableEq

/-- `z.string().optional()` member parse: absent is fine, a string is kept,
any other value is a `ZodError`. -/
def parseOptString : Option Json → Except Unit (Option (List Char))
  | none => .ok none
  | some (.jStr s) => .ok (some s)
  | some _ => .error ()

/-- `corporationValidationResponseSchema.parse`: an object with an optional
string `corporationNumber`, a required boolean `valid`, an optional string
`message`; anything else throws. -/
def corpRespParse : Json → Except Unit CorpResp
  | .jObj fields =>
    match fields.lookup "valid".toList with
    | some (.jBool b) =>
      match parseOptString (fields.lookup "corporationNumber".toList),
          parseOptString (fields.lookup "message".toList) with
      | .ok c, .ok m => .ok ⟨c, b, m⟩
      | _, _ => .error ()
    | _ => .error ()
  | _ => .error ()

/-- An HTTP exchange as the wrapper sees it: the fetch may reject
(`.error`), otherwise a response carries a status code and the outcome of
`response.json()`. -/
structure HttpResponse where
  status : Nat
  body : Except Unit Json

/-- `validateCorporationNumber`: awaits the fetch, awaits `json()`, then
parses the body with the zod schema and returns it without ever reading the
status code; any rejection is re-thrown (after telemetry). -/
def validateCorporationNumber (r : Except Unit HttpResponse) : Except Unit CorpResp :=
  match r with
  | .error _ => .error ()
  | .ok resp =>
    match resp.body with
    | .error _ => .error ()
    | .ok data => corpRespParse data

/-- The settle outcome `validateCorporationWithCache` observes for a given
HTTP exchange: `ok result.valid` on resolution, `err` on a throw. -/
def netOutcomeOf (r : Except Unit HttpResponse) : NetOutcome :=
  match validateCorporationNumber r with
  | .ok c => .ok c.valid
  | .error _ => .err

/-- The 404 exchange for an invalid corporation number: the server replies
404 with the body `{"valid": false}`. -/
def notFoundExchange : Except Unit HttpResponse :=
  .ok ⟨404, .ok (.jObj [("valid".toList, .jBool false)])⟩

/-! ## Sanitization and submission orchestration
(sanitize.ts, part_009 `useConfigurableForm`) -/

/-- Modelled from the spec: the sanitizer delegates to the external
DOMPurify library (`DOMPurify.sanitize(input, { ALLOWED_TAGS: [] })`),
which is not part of this repository; per the spec it strips all HTML
markup, leaving only the text content.  The `true` state is
inside-a-tag. -/
def stripTagsAux : Bool → List Char → List Char
  | _, [] => []
  | true, c :: rest =>
    if c = '>' then stripTagsAux false rest else stripTagsAux true rest
  | false, c :: rest =>
    if c = '<' then stripTagsAux true rest else c :: stripTagsAux false rest

/-- `sanitizeInput`: strip all HTML tags. -/
def sanitizeInput (input : List Char) : List Char := stripTagsAux false input

/-- The onboarding record (`firstName, lastName, phone,
corporationNumber`, all strings). -/
structure OnboardingRecord where
  firstName : List Char
  lastName : List Char
  phone : List Char
  corporationNumber : List Char
  deriving DecidableEq

/-- `sanitizeFormData`: sanitize every string-valued field. -/
def sanitizeFormData (r : OnboardingRecord) : OnboardingRecord :=
  ⟨sanitizeInput r.firstName, sanitizeInput r.lastName,
   sanitizeInput r.phone, sanitizeInput r.corporationNumber⟩

/-- Field identifiers of the onboarding form. -/
inductive FieldId where
  | firstName | lastName | phone | corporationNumber
  deriving DecidableEq

/-- Update of one field's value in the record. -/
def setField (r : OnboardingRecord) : FieldId → List Char → OnboardingRecord
  | .firstName, v => { r with firstName := v }
  | .lastName, v => { r with lastName := v }
  | .phone, v => { r with phone := v }
  | .corporationNumber, v => { r with corporationNumber := v }

/-- Observable submission state of `useConfigurableForm`: current values,
the surfaced mutation error, the success flag, and the log of records
handed to the submission collaborator. -/
structure EngineState where
  values : OnboardingRecord
  submitError : Option (List Char)
  isSuccess : Bool
  submitted : List OnboardingRecord
  deriving DecidableEq

/-- Events: a change of one field's value, and a submission whose
collaborator call resolves (`none`) or rejects with a message. -/
inductive EEvent where
  | change (f : FieldId) (v : List Char)
  | submit (outcome : Option (List Char))

/-- One step: a change updates the record and — via the effect comparing
the serialized values with the previous render's — resets the mutation
when an error is present and the values differ; a submit sanitizes the
record, invokes the collaborator exactly once, then `onSuccess` resets the
form to its defaults (success also clears the mutation error), while a
rejection keeps the entered values and surfaces the error. -/
def engineStep (defaults : OnboardingRecord) (s : EngineState) : EEvent → EngineState
  | .change f v =>
    let nv := setField s.values f v
    if s.submitError.isSome ∧ nv ≠ s.values then
      { values := nv, submitError := none, isSuccess := false,
        submitted := s.submitted }
    else
      { s with values := nv }
  | .submit outcome =>
    match outcome with
    | none =>
      { values := defaults, submitError := none, isSuccess := true,
        submitted := s.submitted ++ [sanitizeFormData s.values] }
    | some e =>
      { values := s.values, submitError := some e, isSuccess := false,
        submitted := s.submitted ++ [sanitizeFormData s.values] }

theorem jsDigits_append (a b : List Char) :
    jsDigits (a ++ b) = jsDigits a ++ jsDigits b :=
  List.filter_append ..

theorem jsDigits_of_all {l : List Char} (h : ∀ c ∈ l, Char.isDigit c = true) :
    jsDigits l = l :=
  List.filter_eq_self.mpr h

theorem jsDigits_all (l : List Char) : ∀ c ∈ jsDigits l, Char.isDigit c = true :=
  fun _ hc => List.of_mem_filter hc

theorem all_digit_take {l : List Char} (h : ∀ c ∈ l, Char.isDigit c = true) (k : Nat) :
    ∀ c ∈ l.take k, Char.isDigit c = true :=
  fun c hc => h c (List.mem_of_mem_take hc)

theorem all_digit_drop {l : List Char} (h : ∀ c ∈ l, Char.isDigit c = true) (k : Nat) :
    ∀ c ∈ l.drop k, Char.isDigit c = true :=
  fun c hc => h c (List.mem_of_mem_drop hc)

theorem up_isAlphanum {c : Char} (h : c.isAlphanum = true) :
    (jsToUpper c).isAlphanum = true := by
  unfold jsToUpper Char.toUpper
  simp only [Char.toNat]
  split
  · rename_i hr
    have hv : (c.val.toNat - 32).isValidChar := Or.inl (by omega)
    rw [Char.ofNat, dif_pos hv]
    have ht : (Char.ofNatAux (c.val.toNat - 32) hv).val.toBitVec.toNat
        = c.val.toNat - 32 := rfl
    have h65 : (UInt32.toBitVec 65).toNat = 65 := rfl
    have h90 : (UInt32.toBitVec 90).toNat = 90 := rfl
    unfold Char.isAlphanum Char.isAlpha Char.isUpper Char.isLower Char.isDigit
    simp only [Bool.or_eq_true, decide_eq_true_eq, ge_iff_le, UInt32.le_def,
      BitVec.le_def, Bool.and_eq_true]
    refine Or.inl (Or.inl ⟨?_, ?_⟩)
    · rw [h65, ht]; omega
    · rw [ht, h90]; omega
  · exact h

theorem up_idem (c : Char) : jsToUpper (jsToUpper c) = jsToUpper c := by
  unfold jsToUpper Char.toUpper
  simp only [Char.toNat]
  split
  · rename_i h
    have hv : (c.val.toNat - 32).isValidChar := Or.inl (by omega)
    rw [Char.ofNat, dif_pos hv]
    have ht : (Char.ofNatAux (c.val.toNat - 32) hv).val.toNat = c.val.toNat - 32 := rfl
    rw [if_neg (by omega)]
  · rfl

/-- Round-trip for the date preset. -/
theorem date_roundtrip (x : List Char) :
    dateParse (dateFormat x) = (jsDigits x).take 8 := by
  unfold dateParse dateFormat
  simp only []
  set d := (jsDigits x).take 8 with hdd
  have hall : ∀ c ∈ d, Char.isDigit c = true :=
    all_digit_take (jsDigits_all x) 8
  have hlen : d.length ≤ 8 := by
    rw [hdd, List.length_take]; exact Nat.min_le_left _ _
  have hslash : Char.isDigit '/' = false := by decide
  by_cases h2 : d.length ≤ 2
  · rw [if_pos h2, jsDigits_of_all hall, List.take_of_length_le hlen]
  · rw [if_neg h2]
    by_cases h4 : d.length ≤ 4
    · rw [if_pos h4]
      rw [show d.take 2 ++ '/' :: d.drop 2 = d.take 2 ++ ['/'] ++ d.drop 2 by simp]
      rw [jsDigits_append, jsDigits_append,
        jsDigits_of_all (all_digit_take hall 2),
        jsDigits_of_all (all_digit_drop hall 2)]
      simp [jsDigits, hslash, List.take_of_length_le hlen]
    · rw [if_neg h4]
      rw [show d.take 2 ++ '/' :: ((d.drop 2).take 2 ++ '/' :: (d.drop 4).take 4)
          = d.take 2 ++ ['/'] ++ (d.drop 2).take 2 ++ ['/'] ++ (d.drop 4).take 4 by simp]
      rw [jsDigits_append, jsDigits_append, jsDigits_append, jsDigits_append,
        jsDigits_of_all (all_digit_take hall 2),
        jsDigits_of_all (all_digit_take (all_digit_drop hall 2) 2),
        jsDigits_of_all (all_digit_take (all_digit_drop hall 4) 4)]
      have hsl : jsDigits ['/'] = [] := by decide
      rw [hsl]
      have h24 : d.take 2 ++ (d.drop 2).take 2 = d.take 4 := by
        rw [show (4 : Nat) = 2 + 2 from rfl, List.take_add]
      have h48 : d.take 4 ++ (d.drop 4).take 4 = d.take 8 := by
        rw [show (8 : Nat) = 4 + 4 from rfl, List.take_add]
      simp only [List.append_nil, List.nil_append, List.append_assoc]
      rw [← List.append_assoc, h24, h48, List.take_of_length_le hlen,
        List.take_of_length_le hlen]

/-- Round-trip for the Canadian phone preset. -/
theorem phone_roundtrip (x : List Char) :
    phoneParse (phoneFormat x) =
      (if jsDigits x = [] then [] else '+' :: (jsDigits x).take 11) := by
  unfold phoneParse phoneFormat
  simp only []
  set d := jsDigits x with hdd
  have hall : ∀ c ∈ d, Char.isDigit c = true := by rw [hdd]; exact jsDigits_all x
  have hsep1 : jsDigits ['+'] = [] := by decide
  have hsep2 : jsDigits [' ', '('] = [] := by decide
  have hsep3 : jsDigits [')', ' '] = [] := by decide
  have hsep4 : jsDigits ['-'] = [] := by decide
  by_cases h0 : d.length = 0
  · have hnil : d = [] := List.length_eq_zero.mp h0
    rw [if_pos h0, if_pos hnil]
    simp [jsDigits]
  · have hne : ¬ (d = []) := fun h => h0 (by simp [h])
    rw [if_neg h0, if_neg hne]
    by_cases h1 : d.length ≤ 1
    · rw [if_pos h1]
      have : jsDigits ('+' :: d) = d := by
        rw [show '+' :: d = ['+'] ++ d by simp, jsDigits_append, hsep1,
          jsDigits_of_all hall, List.nil_append]
      rw [this, if_neg h0]
    · rw [if_neg h1]
      by_cases h4 : d.length ≤ 4
      · rw [if_pos h4]
        have : jsDigits ('+' :: (d.take 1 ++ [' ', '('] ++ d.drop 1)) = d := by
          rw [show '+' :: (d.take 1 ++ [' ', '('] ++ d.drop 1)
              = ['+'] ++ d.take 1 ++ [' ', '('] ++ d.drop 1 by simp]
          rw [jsDigits_append, jsDigits_append, jsDigits_append, hsep1, hsep2,
            jsDigits_of_all (all_digit_take hall 1),
            jsDigits_of_all (all_digit_drop hall 1)]
          simp only [List.append_nil, List.nil_append]
          exact List.take_append_drop 1 d
        rw [this, if_neg h0]
      · rw [if_neg h4]
        by_cases h7 : d.length ≤ 7
        · rw [if_pos h7]
          have : jsDigits ('+' :: (d.take 1 ++ [' ', '('] ++ (d.drop 1).take 3
              ++ [')', ' '] ++ d.drop 4)) = d := by
            rw [show '+' :: (d.take 1 ++ [' ', '('] ++ (d.drop 1).take 3
                ++ [')', ' '] ++ d.drop 4)
                = ['+'] ++ (d.take 1 ++ [' ', '('] ++ (d.drop 1).take 3
                  ++ [')', ' '] ++ d.drop 4) by simp]
            rw [jsDigits_append, jsDigits_append, jsDigits_append, jsDigits_append,
              jsDigits_append, hsep1, hsep2, hsep3,
              jsDigits_of_all (all_digit_take hall 1),
              jsDigits_of_all (all_digit_take (all_digit_drop hall 1) 3),
              jsDigits_of_all (all_digit_drop hall 4)]
            have h13 : d.take 1 ++ (d.drop 1).take 3 = d.take 4 := by
              rw [show (4 : Nat) = 1 + 3 from rfl, List.take_add]
            simp only [List.append_nil, List.nil_append, List.append_assoc]
            rw [← List.append_assoc, h13, List.take_append_drop]
          rw [this, if_neg h0]
        · rw [if_neg h7]
          have hd11 : jsDigits ('+' :: (d.take 1 ++ [' ', '('] ++ (d.drop 1).take 3
              ++ [')', ' '] ++ (d.drop 4).take 3 ++ ['-'] ++ (d.drop 7).take 4))
              = d.take 11 := by
            rw [show '+' :: (d.take 1 ++ [' ', '('] ++ (d.drop 1).take 3
                ++ [')', ' '] ++ (d.drop 4).take 3 ++ ['-'] ++ (d.drop 7).take 4)
                = ['+'] ++ (d.take 1 ++ [' ', '('] ++ (d.drop 1).take 3
                  ++ [')', ' '] ++ (d.drop 4).take 3 ++ ['-'] ++ (d.drop 7).take 4)
                by simp]
            rw [jsDigits_append, jsDigits_append, jsDigits_append, jsDigits_append,
              jsDigits_append, jsDigits_append, jsDigits_append, hsep1, hsep2,
              hsep3, hsep4,
              jsDigits_of_all (all_digit_take hall 1),
              jsDigits_of_all (all_digit_take (all_digit_drop hall 1) 3),
              jsDigits_of_all (all_digit_take (all_digit_drop hall 4) 3),
              jsDigits_of_all (all_digit_take (all_digit_drop hall 7) 4)]
            have h13 : d.take 1 ++ (d.drop 1).take 3 = d.take 4 := by
              rw [show (4 : Nat) = 1 + 3 from rfl, List.take_add]
            have h43 : d.take 4 ++ (d.drop 4).take 3 = d.take 7 := by
              rw [show (7 : Nat) = 4 + 3 from rfl, List.take_add]
            have h74 : d.take 7 ++ (d.drop 7).take 4 = d.take 11 := by
              rw [show (11 : Nat) = 7 + 4 from rfl, List.take_add]
            simp only [List.append_nil, List.nil_append, List.append_assoc]
            rw [← List.append_assoc, ← List.append_assoc, h13, h43, h74]
          rw [hd11]
          have hlen11 : ¬ ((d.take 11).length = 0) := by
            rw [List.length_take]
            omega
          rw [if_neg hlen11, List.take_take]
          norm_num

/-- Round-trip for the Canadian postal-code preset. -/
theorem postal_roundtrip (x : List Char) :
    postalParse (postalFormat x) = postalClean x := by
  unfold postalParse postalFormat
  simp only []
  set c := postalClean x with hcc
  have hallup : ∀ e ∈ c, e.isAlphanum = true ∧ jsToUpper e = e := by
    intro e he
    rw [hcc] at he
    unfold postalClean at he
    obtain ⟨a, ha, rfl⟩ := List.mem_map.mp (List.mem_of_mem_take he)
    have : a.isAlphanum = true := List.of_mem_filter ha
    exact ⟨up_isAlphanum this, up_idem a⟩
  have halnum : jsAlnums c = c :=
    List.filter_eq_self.mpr fun e he => (hallup e he).1
  have hmap : c.map jsToUpper = c :=
    List.map_congr_left (fun e he => (hallup e he).2) |>.trans (List.map_id c)
  have hlen : c.length ≤ 6 := by
    rw [hcc]; unfold postalClean; rw [List.length_take]; exact Nat.min_le_left _ _
  by_cases h3 : c.length ≤ 3
  · rw [if_pos h3]
    unfold postalClean jsAlnums
    unfold jsAlnums at halnum
    rw [halnum, hmap, List.take_of_length_le hlen]
  · rw [if_neg h3]
    unfold postalClean
    have hsp : jsAlnums [' '] = [] := by decide
    rw [show c.take 3 ++ ' ' :: c.drop 3 = c.take 3 ++ [' '] ++ c.drop 3 by simp]
    have ht : jsAlnums (c.take 3 ++ [' '] ++ c.drop 3) = c := by
      unfold jsAlnums
      rw [List.filter_append, List.filter_append]
      unfold jsAlnums at hsp halnum
      rw [hsp]
      have h1 : List.filter (fun e => e.isAlphanum) (c.take 3) = c.take 3 :=
        List.filter_eq_self.mpr fun e he => (hallup e (List.mem_of_mem_take he)).1
      have h2 : List.filter (fun e => e.isAlphanum) (c.drop 3) = c.drop 3 :=
        List.filter_eq_self.mpr fun e he => (hallup e (List.mem_of_mem_drop he)).1
      simp [h1, h2]
    rw [ht, hmap, List.take_of_length_le hlen]

theorem chunks4_eq (l : List Char) (h : l ≠ []) :
    chunks4 l = l.take 4 :: chunks4 (l.drop 4) := by
  match l with
  | [] => exact absurd rfl h
  | [a] => rfl
  | [a, b] => rfl
  | [a, b, c] => rfl
  | a :: b :: c :: d :: rest => rfl

theorem chunks4_ne_nil (l : List Char) (h : l ≠ []) : chunks4 l ≠ [] := by
  rw [chunks4_eq l h]
  simp

theorem joinSp_cons (g : List Char) (gs : List (List Char)) (h : gs ≠ []) :
    joinSp (g :: gs) = g ++ ' ' :: joinSp gs := by
  match gs with
  | [] => exact absurd rfl h
  | g2 :: rest => rfl

theorem joinSp_chunks4_short (l : List Char) (h : l.length ≤ 4) :
    joinSp (chunks4 l) = l := by
  match l with
  | [] => rfl
  | [a] => rfl
  | [a, b] => rfl
  | [a, b, c] => rfl
  | [a, b, c, d] => rfl
  | a :: b :: c :: d :: e :: rest => simp at h

theorem joinSp_chunks4_step (l : List Char) (h : 4 < l.length) :
    joinSp (chunks4 l) = l.take 4 ++ ' ' :: joinSp (chunks4 (l.drop 4)) := by
  have hne : l ≠ [] := by
    intro hh
    rw [hh] at h
    simp at h
  rw [chunks4_eq l hne]
  have hdne : l.drop 4 ≠ [] := by
    intro hh
    have hl := congrArg List.length hh
    rw [List.length_drop] at hl
    simp at hl
    omega
  exact joinSp_cons _ _ (chunks4_ne_nil _ hdne)

theorem digits_joinSp_aux (n : Nat) : ∀ l : List Char, l.length ≤ n →
    (∀ c ∈ l, Char.isDigit c = true) → jsDigits (joinSp (chunks4 l)) = l := by
  induction n with
  | zero =>
    intro l hl _
    have : l = [] := List.length_eq_zero.mp (by omega)
    subst this
    rfl
  | succ m ih =>
    intro l hl hall
    by_cases h4 : l.length ≤ 4
    · rw [joinSp_chunks4_short l h4, jsDigits_of_all hall]
    · push_neg at h4
      rw [joinSp_chunks4_step l h4]
      rw [show l.take 4 ++ ' ' :: joinSp (chunks4 (l.drop 4))
          = l.take 4 ++ [' '] ++ joinSp (chunks4 (l.drop 4)) by simp]
      rw [jsDigits_append, jsDigits_append,
        jsDigits_of_all (all_digit_take hall 4)]
      have hsp : jsDigits [' '] = [] := by decide
      have hdlen : (l.drop 4).length ≤ m := by
        rw [List.length_drop]
        omega
      rw [hsp, ih (l.drop 4) hdlen (all_digit_drop hall 4)]
      simp [List.take_append_drop]

theorem digits_joinSp (l : List Char) (hall : ∀ c ∈ l, Char.isDigit c = true) :
    jsDigits (joinSp (chunks4 l)) = l :=
  digits_joinSp_aux l.length l le_rfl hall

theorem take_joinSp_chunks (k : Nat) : ∀ l : List Char,
    (joinSp (chunks4 l)).take (5 * (k + 1) - 1)
      = joinSp (chunks4 (l.take (4 * (k + 1)))) := by
  induction k with
  | zero =>
    intro l
    norm_num
    by_cases h4 : l.length ≤ 4
    · rw [joinSp_chunks4_short l h4, List.take_of_length_le h4]
      exact (joinSp_chunks4_short l h4).symm
    · push_neg at h4
      rw [joinSp_chunks4_step l h4, List.take_append_eq_append_take]
      have hl4 : (l.take 4).length = 4 := by
        rw [List.length_take]
        omega
      rw [List.take_of_length_le (le_of_eq hl4), hl4]
      norm_num
      rw [joinSp_chunks4_short (l.take 4) (le_of_eq hl4)]
  | succ m ih =>
    intro l
    by_cases h4 : l.length ≤ 4
    · have hto : 4 ≤ 4 * (m + 1 + 1) := by omega
      have hto5 : l.length ≤ 5 * (m + 1 + 1) - 1 := by omega
      rw [joinSp_chunks4_short l h4,
        List.take_of_length_le (le_trans h4 hto),
        List.take_of_length_le hto5, joinSp_chunks4_short l h4]
    · push_neg at h4
      rw [joinSp_chunks4_step l h4, List.take_append_eq_append_take]
      have hl4 : (l.take 4).length = 4 := by
        rw [List.length_take]
        omega
      rw [List.take_of_length_le (by omega : (l.take 4).length ≤ 5 * (m + 1 + 1) - 1), hl4]
      have hsub : 5 * (m + 1 + 1) - 1 - 4 = 5 * (m + 1) := by omega
      rw [hsub]
      have hcons : (' ' :: joinSp (chunks4 (l.drop 4))).take (5 * (m + 1))
          = ' ' :: (joinSp (chunks4 (l.drop 4))).take (5 * (m + 1) - 1) := by
        conv_lhs => rw [show 5 * (m + 1) = (5 * (m + 1) - 1) + 1 by omega]
        rw [List.take_succ_cons]
      rw [hcons, ih (l.drop 4)]
      have hlt : 4 < (l.take (4 * (m + 1 + 1))).length := by
        rw [List.length_take]
        omega
      rw [joinSp_chunks4_step _ hlt, List.take_take]
      have hmin : min 4 (4 * (m + 1 + 1)) = 4 := by omega
      rw [hmin, List.drop_take]
      have hsub2 : 4 * (m + 1 + 1) - 4 = 4 * (m + 1) := by omega
      rw [hsub2]

/-- Round-trip for the credit-card preset. -/
theorem credit_roundtrip (x : List Char) :
    creditCardParse (creditCardFormat x) = (jsDigits x).take 16 := by
  unfold creditCardFormat creditCardParse
  simp only []
  set d := jsDigits x with hdd
  have hall : ∀ c ∈ d, Char.isDigit c = true := by
    rw [hdd]
    exact jsDigits_all x
  by_cases hnil : d = []
  · rw [if_pos hnil, hnil]
    rfl
  · rw [if_neg hnil]
    have h19 : (joinSp (chunks4 d)).take 19 = joinSp (chunks4 (d.take 16)) := by
      have hG := take_joinSp_chunks 3 d
      norm_num at hG
      exact hG
    rw [h19, digits_joinSp (d.take 16) (all_digit_take hall 16), List.take_take]
    norm_num

/-- C2: for every supported mask preset and every input string,
`parse(format(x))` equals the spec's `normalize(x)`: strip characters
outside the preset's domain (uppercasing for the postal preset, re-adding
the leading `+` for the phone preset) and cap at the preset's maximum raw
length. -/
theorem mask_parse_format_roundtrip :
    ∀ (p : MaskPresetName) (x : List Char),
      maskParse p (maskFormat p x) = specNormalize p x := by
  intro p x
  cases p with
  | phoneCA =>
    simpa [maskParse, maskFormat, specNormalize, maskMaxLength]
      using phone_roundtrip x
  | creditCard =>
    simpa [maskParse, maskFormat, specNormalize, maskMaxLength]
      using credit_roundtrip x
  | postalCodeCA =>
    simpa [maskParse, maskFormat, specNormalize, maskMaxLength, postalClean]
      using postal_roundtrip x
  | date =>
    simpa [maskParse, maskFormat, specNormalize, maskMaxLength]
      using date_roundtrip x

/-- C4: the Canadian phone predicate is pure and accepts exactly the strings
whose digit content is 11 digits with a leading 1 or exactly 10 digits and
whose reduced 10-digit form starts with 2-9; the five concrete examples of
the spec behave as stated. -/
theorem canadian_phone_characterization :
    (∀ v : List Char,
      isValidCanadianPhone v = true ↔
        (∃ c rest, ('1' :: c :: rest = v.filter Char.isDigit ∧ rest.length = 9
            ∨ c :: rest = v.filter Char.isDigit ∧ rest.length = 9)
          ∧ '2' ≤ c ∧ c ≤ '9'))
    ∧ isValidCanadianPhone "+12345678901".toList = true
    ∧ isValidCanadianPhone "2345678901".toList = true
    ∧ isValidCanadianPhone "+19995678901".toList = true
    ∧ isValidCanadianPhone "1234567890".toList = false
    ∧ isValidCanadianPhone "123456789".toList = false := by
  refine ⟨?_, by decide, by decide, by decide, by decide, by decide⟩
  intro v
  unfold isValidCanadianPhone
  simp only []
  generalize v.filter Char.isDigit = d
  by_cases h11 : d.length = 11 ∧ d.head? = some '1'
  · rw [if_pos h11]
    obtain ⟨hlen, hhd⟩ := h11
    cases d with
    | nil => simp at hlen
    | cons e tl =>
      have he : e = '1' := by simpa using hhd
      cases tl with
      | nil => simp at hlen
      | cons c rest =>
        have hrl : rest.length = 9 := by simp at hlen; omega
        subst he
        constructor
        · intro h
          simp at h
          exact ⟨c, rest, Or.inl ⟨rfl, hrl⟩, h⟩
        · rintro ⟨c0, rest0, hcase, hc2, hc9⟩
          rcases hcase with ⟨heq, _⟩ | ⟨heq, hl0⟩
          · obtain ⟨rfl, rfl⟩ : c0 = c ∧ rest0 = rest := by
              injection heq with h1 h2
              injection h2 with h3 h4
              exact ⟨h3, h4⟩
            simp [hc2, hc9]
          · exfalso
            have : ('1' :: c :: rest).length = 10 := by rw [← heq]; simp [hl0]
            simp [hrl] at this
  · rw [if_neg h11]
    by_cases h10 : d.length = 10
    · rw [if_pos h10]
      cases d with
      | nil => simp at h10
      | cons c rest =>
        have hrl : rest.length = 9 := by simp at h10; omega
        constructor
        · intro h
          simp at h
          exact ⟨c, rest, Or.inr ⟨rfl, hrl⟩, h⟩
        · rintro ⟨c0, rest0, hcase, hc2, hc9⟩
          rcases hcase with ⟨heq, hl0⟩ | ⟨heq, hl0⟩
          · exfalso
            apply h11
            constructor
            · rw [← heq]; simp [hl0]
            · rw [← heq]; simp
          · obtain ⟨rfl, rfl⟩ : c0 = c ∧ rest0 = rest := by
              injection heq with h1 h2
              exact ⟨h1, h2⟩
            simp [hc2, hc9]
    · rw [if_neg h10]
      simp only [show (none : Option (List Char)) = none from rfl]
      constructor
      · intro h
        simp at h
      · rintro ⟨c0, rest0, hcase, hc2, hc9⟩
        exfalso
        rcases hcase with ⟨heq, hl0⟩ | ⟨heq, hl0⟩
        · exact h11 ⟨by rw [← heq]; simp [hl0], by rw [← heq]; simp⟩
        · exact h10 (by rw [← heq]; simp [hl0])

/-- C8: at every form-engine state, `isSubmitDisabled` is true exactly when
some field has an error, or some field value is empty after trimming, or a
submission is pending, or an async validation is in flight. -/
theorem submit_disabled_characterization :
    ∀ s : FormSnapshot,
      isSubmitDisabled s = true ↔
        (s.errors ≠ [] ∨ (∃ p ∈ s.values, jsTrim p.2 = [])
          ∨ s.isPending = true ∨ s.isValidating = true) := by
  intro s
  unfold isSubmitDisabled hasErrors allFieldsFilled
  simp only [Bool.or_eq_true, decide_eq_true_eq, Bool.not_eq_true',
    List.all_eq_false, Bool.and_eq_false_iff, Bool.not_eq_true,
    List.isEmpty_iff, decide_eq_false_iff_not, not_lt, Nat.le_zero,
    List.length_eq_zero, Bool.not_eq_false']
  constructor
  · rintro (((h | ⟨p, hp, hfail⟩) | h) | h)
    · exact Or.inl (List.ne_nil_of_length_pos h)
    · refine Or.inr (Or.inl ⟨p, hp, ?_⟩)
      rcases hfail with h1 | h1
      · simp [h1, jsTrim]
      · exact h1
    · exact Or.inr (Or.inr (Or.inl h))
    · exact Or.inr (Or.inr (Or.inr h))
  · rintro (h | ⟨p, hp, hemp⟩ | h | h)
    · exact Or.inl (Or.inl (Or.inl (List.length_pos.mpr h)))
    · exact Or.inl (Or.inl (Or.inr ⟨p, hp, Or.inr hemp⟩))
    · exact Or.inl (Or.inr h)
    · exact Or.inr h

/-- C6: for every field and value the surfaced error is the first failing
rule in the stated order — a single code, never an accumulation; for the
corporation number the order is non-empty, length 9, all-digit, async. -/
theorem first_failing_rule_wins :
    ∀ (v : List Char) (oracle : Bool),
      fieldError (firstNameIssues v) = specFirstFailingName ErrCode.firstNameRequired v
      ∧ fieldError (lastNameIssues v) = specFirstFailingName ErrCode.lastNameRequired v
      ∧ fieldError (phoneIssues v) = specFirstFailingPhone v
      ∧ fieldError (corpIssues v oracle) = specFirstFailingCorp v oracle := by
  intro v oracle
  have hname : ∀ r : ErrCode,
      fieldError ((if (jsTrim v).length < 1 then [r] else [])
        ++ (if 50 < (jsTrim v).length then [ErrCode.maxLength] else []))
      = (if jsTrim v = [] then some r
         else if 50 < (jsTrim v).length then some ErrCode.maxLength else none) := by
    intro r
    set t := jsTrim v with htt
    by_cases h0 : t = []
    · rw [h0]
      simp [fieldError]
    · have hl : ¬ (t.length < 1) := by
        have := List.length_pos.mpr h0
        omega
      rw [if_neg hl, if_neg h0, List.nil_append]
      by_cases h50 : 50 < t.length
      · rw [if_pos h50, if_pos h50]
        rfl
      · rw [if_neg h50, if_neg h50]
        rfl
  refine ⟨hname ErrCode.firstNameRequired, hname ErrCode.lastNameRequired, ?_, ?_⟩
  · unfold phoneIssues specFirstFailingPhone
    simp only []
    set t := jsTrim v with htt
    by_cases h0 : t = []
    · rw [h0]
      simp [fieldError, isValidCanadianPhone]
    · have hl : ¬ (t.length < 1) := by
        have := List.length_pos.mpr h0
        omega
      rw [if_neg hl, if_neg h0, List.nil_append]
      by_cases hph : isValidCanadianPhone t
      · rw [if_pos hph, if_pos hph]
        rfl
      · rw [if_neg hph, if_neg hph]
        rfl
  · unfold corpIssues specFirstFailingCorp
    simp only []
    set t := jsTrim v with htt
    by_cases h0 : t = []
    · rw [h0]
      simp [fieldError, corpNumberRegexTest, corpRefineSkips]
    · have hl : ¬ (t.length < 1) := by
        have := List.length_pos.mpr h0
        omega
      rw [if_neg hl, if_neg h0, List.nil_append]
      by_cases h9 : t.length = 9
      · rw [if_neg (by omega : ¬ (t.length ≠ 9)), if_neg (by omega : ¬ (t.length ≠ 9)),
          List.nil_append]
        by_cases hdig : t.all Char.isDigit = true
        · have hre : corpNumberRegexTest t = true := by
            unfold corpNumberRegexTest
            simp [h9, hdig]
          have hsk : corpRefineSkips t = false := by
            unfold corpRefineSkips
            simp [h9, hre]
          rw [if_pos hre, List.nil_append,
            if_neg (by simp [hdig] : ¬ ¬ (t.all Char.isDigit = true)),
            if_neg (by simp [hsk] : ¬ (corpRefineSkips t = true))]
          by_cases ho : oracle = true
          · rw [if_pos ho, if_pos ho]
            rfl
          · rw [if_neg ho, if_neg ho]
            rfl
        · have hdigf : t.all Char.isDigit = false := Bool.eq_false_iff.mpr hdig
          have hre : corpNumberRegexTest t = false := by
            unfold corpNumberRegexTest
            simp [hdigf]
          rw [if_neg (by simp [hre] : ¬ (corpNumberRegexTest t = true)), if_pos hdig]
          rfl
      · rw [if_pos h9, if_pos h9]
        rfl

/-- C5: a corporation-number value that is not exactly 9 digits after
trimming never invokes the validation cache (hence never the external
collaborator) and surfaces only a synchronous format error, independent of
the async oracle. -/
theorem malformed_corp_short_circuits :
    ∀ (v : List Char) (oracle : Bool),
      ¬ ((jsTrim v).length = 9 ∧ (jsTrim v).all Char.isDigit = true) →
        corpInvokesCache v = false
        ∧ corpIssues v oracle = corpIssues v true
        ∧ ∃ e, fieldError (corpIssues v oracle) = some e
            ∧ (e = ErrCode.corpRequired ∨ e = ErrCode.corpLength
               ∨ e = ErrCode.corpDigitsOnly) := by
  intro v oracle h
  set t := jsTrim v with htt
  have hsk : corpRefineSkips t = true := by
    unfold corpRefineSkips corpNumberRegexTest
    by_cases h9 : t.length = 9
    · have hd : ¬ (t.all Char.isDigit = true) := fun hd => h ⟨h9, hd⟩
      have hdf : t.all Char.isDigit = false := Bool.eq_false_iff.mpr hd
      simp [h9, hdf]
    · simp [h9]
  refine ⟨?_, ?_, ?_⟩
  · unfold corpInvokesCache
    rw [← htt, hsk]
    rfl
  · unfold corpIssues
    simp only []
    rw [← htt, if_pos hsk, if_pos hsk]
  · unfold corpIssues
    simp only []
    rw [← htt]
    by_cases h0 : t = []
    · refine ⟨ErrCode.corpRequired, ?_, Or.inl rfl⟩
      rw [h0]
      simp [fieldError, corpRefineSkips, corpNumberRegexTest]
    · have hl : ¬ (t.length < 1) := by
        have := List.length_pos.mpr h0
        omega
      rw [if_neg hl, List.nil_append]
      by_cases h9 : t.length = 9
      · have hd : ¬ (t.all Char.isDigit = true) := fun hd => h ⟨h9, hd⟩
        have hdf : t.all Char.isDigit = false := Bool.eq_false_iff.mpr hd
        have hre : corpNumberRegexTest t = false := by
          unfold corpNumberRegexTest
          simp [hdf]
        refine ⟨ErrCode.corpDigitsOnly, ?_, Or.inr (Or.inr rfl)⟩
        rw [if_neg (by omega : ¬ (t.length ≠ 9)), List.nil_append,
          if_neg (by simp [hre] : ¬ (corpNumberRegexTest t = true))]
        rfl
      · refine ⟨ErrCode.corpLength, ?_, Or.inr (Or.inl rfl)⟩
        rw [if_pos (by omega : t.length ≠ 9)]
        rfl

/-- Witness for C5 at the concrete malformed value `"12345678"` (8 digits). -/
theorem malformed_corp_short_circuits_witness :
    corpInvokesCache "12345678".toList = false
    ∧ corpIssues "12345678".toList false = corpIssues "12345678".toList true
    ∧ ∃ e, fieldError (corpIssues "12345678".toList false) = some e
        ∧ (e = ErrCode.corpRequired ∨ e = ErrCode.corpLength
           ∨ e = ErrCode.corpDigitsOnly) :=
  malformed_corp_short_circuits "12345678".toList false (by decide)

theorem mem_idsFrom (i : Nat) : ∀ (n M : Nat), i ∈ idsFrom n M ↔ n ≤ i ∧ i < n + M := by
  intro n M
  induction M generalizing n with
  | zero => simp [idsFrom]
  | succ m ih =>
    simp only [idsFrom, List.mem_cons, ih (n + 1)]
    omega

theorem cacheStep_call_fresh (s : CacheState) (k : CKey)
    (hc : s.cache.lookup k = none) (hp : k ∉ s.pending) :
    cacheStep s (.call k)
      = { s with pending := k :: s.pending,
                 netLog := s.netLog ++ [k],
                 waiting := s.waiting ++ [(s.nextId, k)],
                 nextId := s.nextId + 1 } := by
  simp only [cacheStep]
  rw [hc]
  simp [hp]

theorem cacheStep_call_join (s : CacheState) (k : CKey)
    (hc : s.cache.lookup k = none) (hp : k ∈ s.pending) :
    cacheStep s (.call k)
      = { s with waiting := s.waiting ++ [(s.nextId, k)],
                 nextId := s.nextId + 1 } := by
  simp only [cacheStep]
  rw [hc]
  simp [hp]

theorem cacheRun_joins (M : Nat) : ∀ (s : CacheState) (k : CKey),
    s.cache.lookup k = none → k ∈ s.pending →
    cacheRun s (List.replicate M (.call k))
      = { s with waiting := s.waiting ++ (idsFrom s.nextId M).map fun i => (i, k),
                 nextId := s.nextId + M } := by
  induction M with
  | zero =>
    intro s k _ _
    simp [cacheRun, idsFrom]
  | succ m ih =>
    intro s k hc hp
    rw [List.replicate_succ]
    show cacheRun (cacheStep s (.call k)) (List.replicate m (.call k)) = _
    rw [cacheStep_call_join s k hc hp]
    rw [ih { s with waiting := s.waiting ++ [(s.nextId, k)], nextId := s.nextId + 1 }
      k hc hp]
    simp [idsFrom]
    omega

theorem cacheRun_fresh_calls (s : CacheState) (k : CKey) (N : Nat)
    (hc : s.cache.lookup k = none) (hp : k ∉ s.pending) (hN : 1 ≤ N) :
    cacheRun s (List.replicate N (.call k))
      = { s with pending := k :: s.pending,
                 netLog := s.netLog ++ [k],
                 waiting := s.waiting ++ (idsFrom s.nextId N).map fun i => (i, k),
                 nextId := s.nextId + N } := by
  obtain ⟨m, rfl⟩ : ∃ m, N = m + 1 := ⟨N - 1, by omega⟩
  rw [List.replicate_succ]
  show cacheRun (cacheStep s (.call k)) (List.replicate m (.call k)) = _
  rw [cacheStep_call_fresh s k hc hp]
  rw [cacheRun_joins m
    { s with pending := k :: s.pending, netLog := s.netLog ++ [k],
             waiting := s.waiting ++ [(s.nextId, k)], nextId := s.nextId + 1 }
    k hc (List.mem_cons_self k s.pending)]
  simp [idsFrom]
  omega

theorem pending_nodup_step (s : CacheState) (e : CEvent) (h : s.pending.Nodup) :
    (cacheStep s e).pending.Nodup := by
  cases e with
  | call k =>
    simp only [cacheStep]
    cases hl : s.cache.lookup k with
    | some b => exact h
    | none =>
      by_cases hp : k ∈ s.pending
      · rw [if_pos hp]
        exact h
      · rw [if_neg hp]
        exact List.nodup_cons.mpr ⟨hp, h⟩
  | settle k o =>
    simp only [cacheStep]
    by_cases hp : k ∈ s.pending
    · rw [if_pos hp]
      exact h.erase k
    · rw [if_neg hp]
      exact h

theorem pending_nodup_run (es : List CEvent) : ∀ s : CacheState,
    s.pending.Nodup → (cacheRun s es).pending.Nodup := by
  induction es with
  | nil => exact fun s h => h
  | cons e rest ih =>
    intro s h
    exact ih (cacheStep s e) (pending_nodup_step s e h)

theorem settle_removes_marker (s : CacheState) (k : CKey) (o : NetOutcome)
    (h : s.pending.Nodup) : k ∉ (cacheStep s (.settle k o)).pending := by
  simp only [cacheStep]
  by_cases hp : k ∈ s.pending
  · rw [if_pos hp]
    exact h.not_mem_erase
  · rw [if_neg hp]
    exact hp

/-- C1: for N ≥ 1 concurrent calls with the same fresh key issued before
the first settles, exactly one external invocation occurs and all N calls
resolve to the same boolean; in every reachable state the in-flight list
holds each key at most once, and a settle removes the in-flight marker
regardless of outcome. -/
theorem cache_dedup_guarantee :
    (∀ (s : CacheState) (k : CKey) (o : NetOutcome) (N : Nat),
      s.cache.lookup k = none → k ∉ s.pending → 1 ≤ N →
        (cacheStep (cacheRun s (List.replicate N (.call k))) (.settle k o)).netLog
          = s.netLog ++ [k]
        ∧ (∀ i ∈ idsFrom s.nextId N,
            (i, settleVal o)
              ∈ (cacheStep (cacheRun s (List.replicate N (.call k)))
                  (.settle k o)).resolved)
        ∧ k ∉ (cacheStep (cacheRun s (List.replicate N (.call k)))
            (.settle k o)).pending)
    ∧ (∀ es : List CEvent, (cacheRun initCache es).pending.Nodup)
    ∧ (∀ (es : List CEvent) (k : CKey) (o : NetOutcome),
        k ∉ (cacheStep (cacheRun initCache es) (.settle k o)).pending) := by
  refine ⟨?_, ?_, ?_⟩
  · intro s k o N hc hp hN
    rw [cacheRun_fresh_calls s k N hc hp hN]
    simp only [cacheStep]
    rw [if_pos (List.mem_cons_self k s.pending)]
    refine ⟨rfl, ?_, ?_⟩
    · intro i hi
      apply List.mem_append_right
      apply List.mem_map.mpr
      refine ⟨(i, k), ?_, rfl⟩
      apply List.mem_filter.mpr
      refine ⟨?_, by simp⟩
      apply List.mem_append_right
      exact List.mem_map.mpr ⟨i, hi, rfl⟩
    · rw [List.erase_cons_head]
      exact hp
  · intro es
    exact pending_nodup_run es initCache List.nodup_nil
  · intro es k o
    exact settle_removes_marker _ k o (pending_nodup_run es initCache List.nodup_nil)

/-- Witness for C1: three concurrent calls for the fresh key `"826417395"`
from the initial state, settled with a successful `true`. -/
theorem cache_dedup_guarantee_witness :
    (cacheStep (cacheRun initCache (List.replicate 3 (.call "826417395".toList)))
        (.settle "826417395".toList (.ok true))).netLog
      = initCache.netLog ++ ["826417395".toList]
    ∧ (0, settleVal (.ok true))
        ∈ (cacheStep (cacheRun initCache (List.replicate 3 (.call "826417395".toList)))
            (.settle "826417395".toList (.ok true))).resolved
    ∧ (1, settleVal (.ok true))
        ∈ (cacheStep (cacheRun initCache (List.replicate 3 (.call "826417395".toList)))
            (.settle "826417395".toList (.ok true))).resolved
    ∧ (2, settleVal (.ok true))
        ∈ (cacheStep (cacheRun initCache (List.replicate 3 (.call "826417395".toList)))
            (.settle "826417395".toList (.ok true))).resolved
    ∧ "826417395".toList
        ∉ (cacheStep (cacheRun initCache (List.replicate 3 (.call "826417395".toList)))
            (.settle "826417395".toList (.ok true))).pending := by
  have h := cache_dedup_guarantee.1 initCache "826417395".toList (.ok true) 3
    rfl (by decide) (by decide)
  exact ⟨h.1, h.2.1 0 (by decide), h.2.1 1 (by decide), h.2.1 2 (by decide), h.2.2⟩

theorem lookup_mapSet_self (m : List (CKey × Bool)) (k : CKey) (v : Bool) :
    (mapSet m k v).lookup k = some v := by
  unfold mapSet
  by_cases h : (m.lookup k).isSome
  · rw [if_pos h]
    induction m with
    | nil => simp at h
    | cons p rest ih =>
      obtain ⟨a, b⟩ := p
      rw [List.map_cons]
      by_cases hk : a = k
      · subst hk
        rw [if_pos (rfl : (a, b).1 = a)]
        simp [List.lookup]
      · have hbeq : (k == a) = false :=
          beq_eq_false_iff_ne.mpr (fun hh => hk hh.symm)
        rw [if_neg (show ¬ ((a, b).1 = k) from hk)]
        have hrest : (rest.lookup k).isSome = true := by
          simpa [List.lookup, hbeq] using h
        simp only [List.lookup, hbeq]
        exact ih hrest
  · rw [if_neg h]
    induction m with
    | nil => simp [List.lookup]
    | cons p rest ih =>
      obtain ⟨a, b⟩ := p
      have hbeq : (k == a) = false := by
        cases hba : (k == a) with
        | false => rfl
        | true =>
          exfalso
          apply h
          have hka : k = a := beq_iff_eq.mp hba
          subst hka
          simp [List.lookup]
      have hrest : ¬ (rest.lookup k).isSome = true := by
        intro hs
        apply h
        simpa [List.lookup, hbeq] using hs
      rw [List.cons_append]
      simp only [List.lookup, hbeq]
      exact ih hrest

/-- One full cycle: a fresh call followed by its settle.  On success the
result is cached; on failure the cache is untouched; either way the caller
with id `s.nextId` resolves to `settleVal o` and the pending marker is
gone. -/
theorem call_settle_cycle (s : CacheState) (k : CKey) (o : NetOutcome)
    (hc : s.cache.lookup k = none) (hp : k ∉ s.pending) :
    cacheRun s [.call k, .settle k o]
      = { s with
          cache := match o with
            | .ok b => mapSet s.cache k b
            | .err => s.cache,
          pending := s.pending,
          waiting := s.waiting.filter fun p => !(p.2 == k),
          resolved := s.resolved
            ++ ((s.waiting.filter fun p => p.2 == k).map fun p => (p.1, settleVal o))
            ++ [(s.nextId, settleVal o)],
          netLog := s.netLog ++ [k],
          nextId := s.nextId + 1 } := by
  show cacheStep (cacheStep s (.call k)) (.settle k o) = _
  rw [cacheStep_call_fresh s k hc hp]
  simp only [cacheStep]
  rw [if_pos (List.mem_cons_self k s.pending)]
  simp [List.filter_append, List.map_append, List.erase_cons_head]

/-- C3: when the collaborator throws, the call resolves `false` and nothing
is cached, so a subsequent call with the same key starts a fresh external
check; two sequential calls, the first rejecting and the second succeeding,
invoke the collaborator once each, and afterwards the successful result is
cached. -/
theorem failed_check_not_cached :
    ∀ (s : CacheState) (k : CKey),
      s.cache.lookup k = none → k ∉ s.pending →
        (cacheRun s [.call k, .settle k .err]).cache.lookup k = none
        ∧ (s.nextId, false) ∈ (cacheRun s [.call k, .settle k .err]).resolved
        ∧ (cacheRun s [.call k, .settle k .err]).pending = s.pending
        ∧ (cacheRun s [.call k, .settle k .err, .call k,
            .settle k (.ok true)]).netLog = s.netLog ++ [k, k]
        ∧ (s.nextId + 1, true) ∈ (cacheRun s [.call k, .settle k .err, .call k,
            .settle k (.ok true)]).resolved
        ∧ (cacheRun s [.call k, .settle k .err, .call k,
            .settle k (.ok true)]).cache.lookup k = some true := by
  intro s k hc hp
  have h1 := call_settle_cycle s k .err hc hp
  have hsplit : cacheRun s [.call k, .settle k .err, .call k, .settle k (.ok true)]
      = cacheRun (cacheRun s [.call k, .settle k .err]) [.call k, .settle k (.ok true)] := rfl
  rw [hsplit, h1]
  have h2 := call_settle_cycle
    { s with
      cache := s.cache,
      pending := s.pending,
      waiting := s.waiting.filter fun p => !(p.2 == k),
      resolved := s.resolved
        ++ ((s.waiting.filter fun p => p.2 == k).map fun p => (p.1, settleVal .err))
        ++ [(s.nextId, settleVal .err)],
      netLog := s.netLog ++ [k],
      nextId := s.nextId + 1 }
    k (.ok true) hc hp
  rw [h2]
  refine ⟨hc, ?_, rfl, by simp, ?_, ?_⟩
  · apply List.mem_append_right
    exact List.mem_cons_self _ _
  · apply List.mem_append_right
    exact List.mem_cons_self _ _
  · exact lookup_mapSet_self s.cache k true

/-- Witness for C3 at the fresh key `"000000000"` from the initial state. -/
theorem failed_check_not_cached_witness :
    (cacheRun initCache [.call "000000000".toList,
        .settle "000000000".toList .err]).cache.lookup "000000000".toList = none
    ∧ (initCache.nextId, false) ∈ (cacheRun initCache [.call "000000000".toList,
        .settle "000000000".toList .err]).resolved
    ∧ (cacheRun initCache [.call "000000000".toList,
        .settle "000000000".toList .err]).pending = initCache.pending
    ∧ (cacheRun initCache [.call "000000000".toList, .settle "000000000".toList .err,
        .call "000000000".toList, .settle "000000000".toList (.ok true)]).netLog
      = initCache.netLog ++ ["000000000".toList, "000000000".toList]
    ∧ (initCache.nextId + 1, true) ∈ (cacheRun initCache [.call "000000000".toList,
        .settle "000000000".toList .err, .call "000000000".toList,
        .settle "000000000".toList (.ok true)]).resolved
    ∧ (cacheRun initCache [.call "000000000".toList, .settle "000000000".toList .err,
        .call "000000000".toList,
        .settle "000000000".toList (.ok true)]).cache.lookup "000000000".toList
      = some true :=
  failed_check_not_cached initCache "000000000".toList rfl (by decide)

/-- C10: the wrapper parses and returns the body regardless of status code,
so a 404 carrying `{valid:false}` resolves normally; its `false` is then
cached permanently (a repeat call makes no further external invocation),
unlike a thrown failure, which caches nothing. -/
theorem api_ignores_status_and_caches_404 :
    (∀ (st1 st2 : Nat) (body : Except Unit Json),
      validateCorporationNumber (.ok ⟨st1, body⟩)
        = validateCorporationNumber (.ok ⟨st2, body⟩))
    ∧ validateCorporationNumber notFoundExchange = .ok ⟨none, false, none⟩
    ∧ (∀ (s : CacheState) (k : CKey),
        s.cache.lookup k = none → k ∉ s.pending →
          (cacheRun s [.call k, .settle k (netOutcomeOf notFoundExchange),
              .call k]).netLog = s.netLog ++ [k]
          ∧ (cacheRun s [.call k, .settle k (netOutcomeOf notFoundExchange),
              .call k]).cache.lookup k = some false
          ∧ (s.nextId + 1, false) ∈ (cacheRun s [.call k,
              .settle k (netOutcomeOf notFoundExchange), .call k]).resolved)
    ∧ (∀ (s : CacheState) (k : CKey),
        s.cache.lookup k = none → k ∉ s.pending →
          (cacheRun s [.call k, .settle k .err]).cache.lookup k = none) := by
  refine ⟨fun st1 st2 body => rfl, rfl, ?_, ?_⟩
  · intro s k hc hp
    have ho : netOutcomeOf notFoundExchange = .ok false := rfl
    rw [ho]
    have hsplit : cacheRun s [.call k, .settle k (.ok false), .call k]
        = cacheStep (cacheRun s [.call k, .settle k (.ok false)]) (.call k) := rfl
    rw [hsplit, call_settle_cycle s k (.ok false) hc hp]
    have hlk : (mapSet s.cache k false).lookup k = some false :=
      lookup_mapSet_self s.cache k false
    simp only [cacheStep]
    rw [hlk]
    refine ⟨rfl, hlk, ?_⟩
    apply List.mem_append_right
    apply List.mem_singleton.mpr
    rfl
  · intro s k hc hp
    rw [call_settle_cycle s k .err hc hp]
    exact hc

/-- Witness for C10's cache consequences at the fresh key `"123456789"`. -/
theorem api_ignores_status_and_caches_404_witness :
    ((cacheRun initCache [.call "123456789".toList,
        .settle "123456789".toList (netOutcomeOf notFoundExchange),
        .call "123456789".toList]).netLog = initCache.netLog ++ ["123456789".toList]
      ∧ (cacheRun initCache [.call "123456789".toList,
          .settle "123456789".toList (netOutcomeOf notFoundExchange),
          .call "123456789".toList]).cache.lookup "123456789".toList = some false
      ∧ (initCache.nextId + 1, false) ∈ (cacheRun initCache [.call "123456789".toList,
          .settle "123456789".toList (netOutcomeOf notFoundExchange),
          .call "123456789".toList]).resolved)
    ∧ (cacheRun initCache [.call "123456789".toList,
        .settle "123456789".toList .err]).cache.lookup "123456789".toList = none :=
  ⟨api_ignores_status_and_caches_404.2.2.1 initCache "123456789".toList rfl (by decide),
   api_ignores_status_and_caches_404.2.2.2 initCache "123456789".toList rfl (by decide)⟩

/-- C9: a successful submission resets every field to its configured
default and sets `isSuccess`; a rejected submission leaves all values
unchanged, surfaces the error as `submitError`, and invokes the
collaborator exactly once (no retry); after such a failure, the next
change that alters any field's value clears `submitError` without
invoking the collaborator. -/
theorem submission_success_failure_semantics :
    ∀ (defaults : OnboardingRecord) (s : EngineState) (e : List Char)
      (f : FieldId) (v : List Char),
      engineStep defaults s (.submit none)
        = { values := defaults, submitError := none, isSuccess := true,
            submitted := s.submitted ++ [sanitizeFormData s.values] }
      ∧ engineStep defaults s (.submit (some e))
        = { values := s.values, submitError := some e, isSuccess := false,
            submitted := s.submitted ++ [sanitizeFormData s.values] }
      ∧ (s.submitError = some e → setField s.values f v ≠ s.values →
          engineStep defaults s (.change f v)
            = { values := setField s.values f v, submitError := none,
                isSuccess := false, submitted := s.submitted }) := by
  intro defaults s e f v
  refine ⟨rfl, rfl, ?_⟩
  intro he hne
  simp only [engineStep]
  rw [if_pos ⟨by rw [he]; rfl, hne⟩]

/-- Witness for C9: a state holding a previous submission error `"boom"`,
submitted and edited at concrete values. -/
theorem submission_success_failure_semantics_witness :
    engineStep ⟨[], [], [], []⟩
        ⟨⟨"John".toList, "Doe".toList, "p".toList, "1".toList⟩,
          some "boom".toList, false, []⟩ (.submit none)
      = { values := ⟨[], [], [], []⟩, submitError := none, isSuccess := true,
          submitted := [] ++ [sanitizeFormData
            ⟨"John".toList, "Doe".toList, "p".toList, "1".toList⟩] }
    ∧ engineStep ⟨[], [], [], []⟩
        ⟨⟨"John".toList, "Doe".toList, "p".toList, "1".toList⟩,
          some "boom".toList, false, []⟩ (.submit (some "boom".toList))
      = { values := ⟨"John".toList, "Doe".toList, "p".toList, "1".toList⟩,
          submitError := some "boom".toList, isSuccess := false,
          submitted := [] ++ [sanitizeFormData
            ⟨"John".toList, "Doe".toList, "p".toList, "1".toList⟩] }
    ∧ engineStep ⟨[], [], [], []⟩
        ⟨⟨"John".toList, "Doe".toList, "p".toList, "1".toList⟩,
          some "boom".toList, false, []⟩ (.change .firstName "Jane".toList)
      = { values := setField
            ⟨"John".toList, "Doe".toList, "p".toList, "1".toList⟩
            .firstName "Jane".toList,
          submitError := none, isSuccess := false, submitted := [] } := by
  have h := submission_success_failure_semantics ⟨[], [], [], []⟩
    ⟨⟨"John".toList, "Doe".toList, "p".toList, "1".toList⟩,
      some "boom".toList, false, []⟩ "boom".toList .firstName "Jane".toList
  exact ⟨h.1, h.2.1, h.2.2 rfl (by decide)⟩

/-- C7: submitting a record whose `firstName` is
`"<script>alert(1)</script>John"` hands the submission collaborator a
record whose `firstName` is the tag-stripped `"alert(1)John"`, whatever
the submission outcome. -/
theorem submit_sanitizes_first_name :
    ∀ (defaults : OnboardingRecord) (s : EngineState)
      (outcome : Option (List Char)),
      s.values.firstName = "<script>alert(1)</script>John".toList →
      ∃ p, (engineStep defaults s (.submit outcome)).submitted
          = s.submitted ++ [p]
        ∧ p.firstName = "alert(1)John".toList := by
  intro defaults s outcome hfn
  refine ⟨sanitizeFormData s.values, ?_, ?_⟩
  · cases outcome with
    | none => rfl
    | some e => rfl
  · show sanitizeInput s.values.firstName = _
    rw [hfn]
    rfl

/-- Witness for C7 at a concrete record and a successful submission. -/
theorem submit_sanitizes_first_name_witness :
    ∃ p, (engineStep ⟨[], [], [], []⟩
        ⟨⟨"<script>alert(1)</script>John".toList, "Doe".toList,
          "p".toList, "1".toList⟩, none, false, []⟩
        (.submit none)).submitted = [] ++ [p]
      ∧ p.firstName = "alert(1)John".toList :=
  submit_sanitizes_first_name ⟨[], [], [], []⟩
    ⟨⟨"<script>alert(1)</script>John".toList, "Doe".toList,
      "p".toList, "1".toList⟩, none, false, []⟩ none rfl

end VCA
